import Mathlib

/-!
Verification of the `BipartiteMatch` and `ImageProjectiveTransform` operation
contracts from `tensorflow/contrib/image/ops/image_ops.cc`.

The source file registers the two operations and their shape-inference
functions; those are embedded directly.  The greedy matching kernel itself is
not part of the sources (only its op registration and documentation are), so
it is modelled from the specification's algorithm description.
-/

namespace TFImage

/-! ### Shape inference (from `image_ops.cc`)

A tensor shape at the shape-inference boundary is a list of dimensions, each
either known (`some n`) or unknown (`none`). -/

abbrev Shape := List (Option Nat)

/-- Embeds `InferenceContext::WithRank`: succeeds exactly when the shape has
the requested rank, otherwise reports an error. -/
def withRank (s : Shape) (r : Nat) : Except String Shape :=
  if s.length = r then Except.ok s
  else Except.error "Shape must have rank 2"

/-- Shape function of `BipartiteMatch` (image_ops.cc, lines 68-74): requires
the distance matrix to have rank 2 and sets the outputs to `[num_rows]` and
`[num_columns]`.  The shape of `num_valid_rows` (input 1) is not inspected. -/
def bipartiteMatchShapeFn (distanceMat _numValidRowsShape : Shape) :
    Except String (Shape × Shape) :=
  match withRank distanceMat 2 with
  | Except.error e => Except.error e
  | Except.ok input => Except.ok ([input.getD 0 none], [input.getD 1 none])

/-- Shape function of `ImageProjectiveTransform` (image_ops.cc, lines 35-38):
output 0 is set to the shape of input 0; the transforms input is ignored and
no rank constraint is imposed. -/
def imageProjectiveTransformShapeFn (images _transforms : Shape) :
    Except String Shape :=
  Except.ok images

/-! ### The greedy matching kernel, modelled from the spec -/

/-- Modelled from the spec: the effective number of valid rows,
`num_valid_rows < 0 ? num_rows : min(num_valid_rows, num_rows)` (the
BipartiteMatch compute kernel is not among the sources). -/
def effectiveNumRows (numRows : Nat) (numValidRows : Int) : Nat :=
  if numValidRows < 0 then numRows else min numValidRows.toNat numRows

/-- Modelled from the spec: the effective cap on the number of matches,
`top_k < 0 ? min(effective_num_rows, num_columns)
           : min(top_k, effective_num_rows, num_columns)`. -/
def effectiveTopK (numRows numCols : Nat) (numValidRows topK : Int) : Nat :=
  if topK < 0 then min (effectiveNumRows numRows numValidRows) numCols
  else min topK.toNat (min (effectiveNumRows numRows numValidRows) numCols)

/-- Modelled from the spec: the candidate pairs of one row, in increasing
column order. -/
def rowCandidates (i nc : Nat) : List (Nat × Nat) :=
  (List.range nc).map (fun j => (i, j))

/-- Modelled from the spec: the candidate pool, all pairs `(i, j)` with
`i < effective_num_rows` and `j < num_columns`, in row-major order. -/
def candidatePairs (enr nc : Nat) : List (Nat × Nat) :=
  (List.range enr).flatMap (fun i => rowCandidates i nc)

/-- Modelled from the spec: selection of the candidate with the smallest
distance; among equal distances the earliest list element wins, which on a
row-major candidate list is the lowest row index, then lowest column index. -/
def pickMin (d : Nat → Nat → ℚ) : List (Nat × Nat) → Option (Nat × Nat)
  | [] => none
  | p :: rest =>
    match pickMin d rest with
    | none => some p
    | some q => if d q.1 q.2 < d p.1 p.2 then some q else some p

/-- Modelled from the spec: the greedy selection loop.  At each step the
remaining candidate with the globally smallest distance is recorded and every
candidate sharing its row or column is discarded; the fuel argument is the
remaining number of matches allowed (`effective_top_k` at the start). -/
def greedyLoop (d : Nat → Nat → ℚ) :
    Nat → List (Nat × Nat) → List (Nat × Nat) → List (Nat × Nat)
  | 0, _, acc => acc.reverse
  | k + 1, avail, acc =>
    match pickMin d avail with
    | none => acc.reverse
    | some p =>
      greedyLoop d k (avail.filter (fun q => q.1 != p.1 && q.2 != p.2)) (p :: acc)

/-- Modelled from the spec: the list of matched pairs, in selection order. -/
def matchedPairs (numRows numCols : Nat) (d : Nat → Nat → ℚ)
    (numValidRows topK : Int) : List (Nat × Nat) :=
  greedyLoop d (effectiveTopK numRows numCols numValidRows topK)
    (candidatePairs (effectiveNumRows numRows numValidRows) numCols) []

/-- Modelled from the spec: the `row_to_col_match_indices` entry of row `i`:
the matched column, or `-1` when row `i` is unmatched. -/
def rowEntry (pairs : List (Nat × Nat)) (i : Nat) : Int :=
  match pairs.find? (fun p => p.1 == i) with
  | some p => (p.2 : Int)
  | none => -1

/-- Modelled from the spec: the `col_to_row_match_indices` entry of column
`j`: the matched row, or `-1` when column `j` is unmatched. -/
def colEntry (pairs : List (Nat × Nat)) (j : Nat) : Int :=
  match pairs.find? (fun p => p.2 == j) with
  | some p => (p.1 : Int)
  | none => -1

/-- Modelled from the spec: the full `row_to_col_match_indices` output. -/
def rowToCol (numRows : Nat) (pairs : List (Nat × Nat)) : List Int :=
  (List.range numRows).map (rowEntry pairs)

/-- Modelled from the spec: the full `col_to_row_match_indices` output. -/
def colToRow (numCols : Nat) (pairs : List (Nat × Nat)) : List Int :=
  (List.range numCols).map (colEntry pairs)

/-- Modelled from the spec: the BipartiteMatch kernel.  `d i j` is the entry
of the distance matrix at row `i`, column `j`. -/
def bipartiteMatch (numRows numCols : Nat) (d : Nat → Nat → ℚ)
    (numValidRows topK : Int) : List Int × List Int :=
  let pairs := matchedPairs numRows numCols d numValidRows topK
  (rowToCol numRows pairs, colToRow numCols pairs)

/-- Modelled from the spec: `num_valid_rows` (and a container-packaged
`top_k`) may arrive as a bare scalar or as a numeric container; the kernel's
validation of that argument is not among the sources. -/
inductive ScalarArg where
  | scalar : Int → ScalarArg
  | container : List Int → ScalarArg

/-- Modelled from the spec: validation of a scalar-or-container parameter; a
container must hold exactly one element, anything else is rejected. -/
def validateScalarArg : ScalarArg → Except String Int
  | ScalarArg.scalar v => Except.ok v
  | ScalarArg.container [v] => Except.ok v
  | ScalarArg.container _ =>
    Except.error "parameter must be a scalar or hold exactly one element"

/-- Row-major (lexicographic) order on candidate pairs. -/
def lexLt (p q : Nat × Nat) : Prop :=
  p.1 < q.1 ∨ (p.1 = q.1 ∧ p.2 < q.2)

instance : DecidableRel lexLt := fun p q => by
  unfold lexLt
  exact inferInstance

lemma pickMin_mem {d : Nat → Nat → ℚ} :
    ∀ {l : List (Nat × Nat)} {p : Nat × Nat}, pickMin d l = some p → p ∈ l := by
  intro l
  induction l with
  | nil => intro p h; simp [pickMin] at h
  | cons a rest ih =>
    intro p h
    rw [pickMin] at h
    cases hrest : pickMin d rest with
    | none =>
      rw [hrest] at h
      simp at h
      simp [h]
    | some q =>
      rw [hrest] at h
      have h' : (if d q.1 q.2 < d a.1 a.2 then some q else some a) = some p := h
      by_cases hlt : d q.1 q.2 < d a.1 a.2
      · rw [if_pos hlt] at h'
        cases h'
        exact List.mem_cons_of_mem a (ih hrest)
      · rw [if_neg hlt] at h'
        cases h'
        exact List.mem_cons_self a rest

lemma pickMin_nil_of_eq_none {d : Nat → Nat → ℚ} :
    ∀ {l : List (Nat × Nat)}, pickMin d l = none → l = [] := by
  intro l h
  cases l with
  | nil => rfl
  | cons a rest =>
    rw [pickMin] at h
    cases hrest : pickMin d rest with
    | none => rw [hrest] at h; simp at h
    | some q =>
      rw [hrest] at h
      by_cases hlt : d q.1 q.2 < d a.1 a.2 <;> simp [hlt] at h

lemma pickMin_sorted_min {d : Nat → Nat → ℚ} :
    ∀ {l : List (Nat × Nat)} {p : Nat × Nat}, l.Pairwise lexLt →
      pickMin d l = some p → ∀ q ∈ l,
        d p.1 p.2 ≤ d q.1 q.2 ∧ (d p.1 p.2 = d q.1 q.2 → p = q ∨ lexLt p q) := by
  intro l
  induction l with
  | nil => intro p _ h; simp [pickMin] at h
  | cons a rest ih =>
    intro p hpw h q hq
    have hpw2 := (List.pairwise_cons.mp hpw)
    rw [pickMin] at h
    cases hrest : pickMin d rest with
    | none =>
      rw [hrest] at h
      simp at h
      have : rest = [] := pickMin_nil_of_eq_none hrest
      subst this
      simp at hq
      subst h; subst hq
      exact ⟨le_refl _, fun _ => Or.inl rfl⟩
    | some m =>
      rw [hrest] at h
      have h' : (if d m.1 m.2 < d a.1 a.2 then some m else some a) = some p := h
      have hm := ih hpw2.2 hrest
      by_cases hlt : d m.1 m.2 < d a.1 a.2
      · rw [if_pos hlt] at h'
        cases h'
        rcases List.mem_cons.mp hq with hqa | hqr
        · subst hqa
          exact ⟨le_of_lt hlt, fun he => absurd he (ne_of_lt hlt)⟩
        · exact hm q hqr
      · rw [if_neg hlt] at h'
        cases h'
        push_neg at hlt
        rcases List.mem_cons.mp hq with hqa | hqr
        · subst hqa
          exact ⟨le_refl _, fun _ => Or.inl rfl⟩
        · have hmq := hm q hqr
          refine ⟨le_trans hlt hmq.1, fun _ => Or.inr ?_⟩
          exact hpw2.1 q hqr

lemma mem_candidatePairs {p : Nat × Nat} {enr nc : Nat} :
    p ∈ candidatePairs enr nc ↔ p.1 < enr ∧ p.2 < nc := by
  cases p with
  | mk i j =>
    simp [candidatePairs, rowCandidates, List.mem_flatMap, List.mem_range]

lemma candidatePairs_pairwise (enr nc : Nat) :
    (candidatePairs enr nc).Pairwise lexLt := by
  unfold candidatePairs
  rw [List.pairwise_flatMap]
  constructor
  · intro a _
    unfold rowCandidates
    rw [List.pairwise_map]
    exact (List.pairwise_lt_range nc).imp (fun h => Or.inr ⟨rfl, h⟩)
  · have := List.pairwise_lt_range enr
    refine this.imp ?_
    intro a b hab x hx y hy
    rcases List.mem_map.mp hx with ⟨jx, _, hxe⟩
    rcases List.mem_map.mp hy with ⟨jy, _, hye⟩
    subst hxe; subst hye
    exact Or.inl hab

lemma effectiveNumRows_le (nr : Nat) (nvr : Int) : effectiveNumRows nr nvr ≤ nr := by
  unfold effectiveNumRows
  split
  · exact le_refl _
  · exact Nat.min_le_right _ _

lemma greedyLoop_spec (d : Nat → Nat → ℚ) (P : Nat × Nat → Prop) :
    ∀ (k : Nat) (avail acc : List (Nat × Nat)),
      (∀ p ∈ avail, P p) →
      (∀ p ∈ acc, P p) →
      (∀ p ∈ avail, p.1 ∉ acc.map Prod.fst ∧ p.2 ∉ acc.map Prod.snd) →
      (acc.map Prod.fst).Nodup →
      (acc.map Prod.snd).Nodup →
      (∀ p ∈ greedyLoop d k avail acc, P p) ∧
      ((greedyLoop d k avail acc).map Prod.fst).Nodup ∧
      ((greedyLoop d k avail acc).map Prod.snd).Nodup ∧
      (greedyLoop d k avail acc).length ≤ acc.length + k := by
  intro k
  induction k with
  | zero =>
    intro avail acc _ hacc _ hr hc
    rw [greedyLoop]
    refine ⟨fun p hp => hacc p (List.mem_reverse.mp hp), ?_, ?_, ?_⟩
    · rw [List.map_reverse]; exact List.nodup_reverse.mpr hr
    · rw [List.map_reverse]; exact List.nodup_reverse.mpr hc
    · rw [List.length_reverse]; omega
  | succ k ih =>
    intro avail acc hav hacc hdisj hr hc
    cases hpick : pickMin d avail with
    | none =>
      simp only [greedyLoop, hpick]
      refine ⟨fun p hp => hacc p (List.mem_reverse.mp hp), ?_, ?_, ?_⟩
      · rw [List.map_reverse]; exact List.nodup_reverse.mpr hr
      · rw [List.map_reverse]; exact List.nodup_reverse.mpr hc
      · rw [List.length_reverse]; omega
    | some p =>
      simp only [greedyLoop, hpick]
      have hpav : p ∈ avail := pickMin_mem hpick
      have hstep := ih (avail.filter (fun q => q.1 != p.1 && q.2 != p.2)) (p :: acc)
        (fun q hq => hav q (List.mem_filter.mp hq).1)
        (fun q hq => by
          rcases List.mem_cons.mp hq with h | h
          · rw [h]; exact hav p hpav
          · exact hacc q h)
        (fun q hq => by
          have hq1 := List.mem_filter.mp hq
          have hb := hq1.2
          simp only [Bool.and_eq_true, bne_iff_ne] at hb
          have hdq := hdisj q hq1.1
          constructor
          · simp only [List.map_cons, List.mem_cons]
            rintro (h | h)
            · exact hb.1 h
            · exact hdq.1 h
          · simp only [List.map_cons, List.mem_cons]
            rintro (h | h)
            · exact hb.2 h
            · exact hdq.2 h)
        (by
          simp only [List.map_cons, List.nodup_cons]
          exact ⟨(hdisj p hpav).1, hr⟩)
        (by
          simp only [List.map_cons, List.nodup_cons]
          exact ⟨(hdisj p hpav).2, hc⟩)
      refine ⟨hstep.1, hstep.2.1, hstep.2.2.1, ?_⟩
      have hl := hstep.2.2.2
      simp only [List.length_cons] at hl
      omega

lemma matchedPairs_spec (nr nc : Nat) (d : Nat → Nat → ℚ) (nvr tk : Int) :
    (∀ p ∈ matchedPairs nr nc d nvr tk,
        p.1 < effectiveNumRows nr nvr ∧ p.2 < nc) ∧
    ((matchedPairs nr nc d nvr tk).map Prod.fst).Nodup ∧
    ((matchedPairs nr nc d nvr tk).map Prod.snd).Nodup ∧
    (matchedPairs nr nc d nvr tk).length ≤ effectiveTopK nr nc nvr tk := by
  have h := greedyLoop_spec d
    (fun p => p.1 < effectiveNumRows nr nvr ∧ p.2 < nc)
    (effectiveTopK nr nc nvr tk)
    (candidatePairs (effectiveNumRows nr nvr) nc) []
    (fun p hp => mem_candidatePairs.mp hp)
    (fun p hp => absurd hp (List.not_mem_nil p))
    (fun p _ => by simp)
    (by simp)
    (by simp)
  have hlen := h.2.2.2
  simp only [List.length_nil, Nat.zero_add] at hlen
  exact ⟨h.1, h.2.1, h.2.2.1, hlen⟩

lemma find?_fst_of_mem {pairs : List (Nat × Nat)} {i j : Nat}
    (hnd : (pairs.map Prod.fst).Nodup) (hmem : (i, j) ∈ pairs) :
    pairs.find? (fun p => p.1 == i) = some (i, j) := by
  induction pairs with
  | nil => exact absurd hmem (List.not_mem_nil _)
  | cons a rest ih =>
    simp only [List.map_cons, List.nodup_cons] at hnd
    by_cases ha : a.1 = i
    · have : a = (i, j) := by
        rcases List.mem_cons.mp hmem with h | h
        · exact h.symm
        · exfalso
          apply hnd.1
          rw [ha]
          exact List.mem_map.mpr ⟨(i, j), h, rfl⟩
      rw [List.find?_cons_of_pos _ (by simp [ha])]
      rw [this]
    · have hmem2 : (i, j) ∈ rest := by
        rcases List.mem_cons.mp hmem with h | h
        · exact absurd (congrArg Prod.fst h.symm) ha
        · exact h
      rw [List.find?_cons_of_neg _ (by simp [ha])]
      exact ih hnd.2 hmem2

lemma find?_snd_of_mem {pairs : List (Nat × Nat)} {i j : Nat}
    (hnd : (pairs.map Prod.snd).Nodup) (hmem : (i, j) ∈ pairs) :
    pairs.find? (fun p => p.2 == j) = some (i, j) := by
  induction pairs with
  | nil => exact absurd hmem (List.not_mem_nil _)
  | cons a rest ih =>
    simp only [List.map_cons, List.nodup_cons] at hnd
    by_cases ha : a.2 = j
    · have : a = (i, j) := by
        rcases List.mem_cons.mp hmem with h | h
        · exact h.symm
        · exfalso
          apply hnd.1
          rw [ha]
          exact List.mem_map.mpr ⟨(i, j), h, rfl⟩
      rw [List.find?_cons_of_pos _ (by simp [ha])]
      rw [this]
    · have hmem2 : (i, j) ∈ rest := by
        rcases List.mem_cons.mp hmem with h | h
        · exact absurd (congrArg Prod.snd h.symm) ha
        · exact h
      rw [List.find?_cons_of_neg _ (by simp [ha])]
      exact ih hnd.2 hmem2

lemma rowEntry_mem {pairs : List (Nat × Nat)} {i j : Nat}
    (h : rowEntry pairs i = (j : Int)) : (i, j) ∈ pairs := by
  unfold rowEntry at h
  cases hf : pairs.find? (fun p => p.1 == i) with
  | none =>
    rw [hf] at h
    simp at h
  | some q =>
    rw [hf] at h
    have hq1 : q.1 = i := by
      have := List.find?_some hf
      simpa using this
    have h2 : (q.2 : Int) = (j : Int) := h
    have hq2 : q.2 = j := by exact_mod_cast h2
    have hmem := List.mem_of_find?_eq_some hf
    have : q = (i, j) := Prod.ext hq1 hq2
    rw [this] at hmem
    exact hmem

lemma colEntry_mem {pairs : List (Nat × Nat)} {i j : Nat}
    (h : colEntry pairs j = (i : Int)) : (i, j) ∈ pairs := by
  unfold colEntry at h
  cases hf : pairs.find? (fun p => p.2 == j) with
  | none =>
    rw [hf] at h
    simp at h
  | some q =>
    rw [hf] at h
    have hq2 : q.2 = j := by
      have := List.find?_some hf
      simpa using this
    have h2 : (q.1 : Int) = (i : Int) := h
    have hq1 : q.1 = i := by exact_mod_cast h2
    have hmem := List.mem_of_find?_eq_some hf
    have : q = (i, j) := Prod.ext hq1 hq2
    rw [this] at hmem
    exact hmem

lemma rowEntry_of_mem {pairs : List (Nat × Nat)} {i j : Nat}
    (hnd : (pairs.map Prod.fst).Nodup) (hmem : (i, j) ∈ pairs) :
    rowEntry pairs i = (j : Int) := by
  unfold rowEntry
  rw [find?_fst_of_mem hnd hmem]

lemma colEntry_of_mem {pairs : List (Nat × Nat)} {i j : Nat}
    (hnd : (pairs.map Prod.snd).Nodup) (hmem : (i, j) ∈ pairs) :
    colEntry pairs j = (i : Int) := by
  unfold colEntry
  rw [find?_snd_of_mem hnd hmem]

lemma rowToCol_getD {nr : Nat} {pairs : List (Nat × Nat)} {i : Nat}
    (h : i < nr) : (rowToCol nr pairs).getD i (-1) = rowEntry pairs i := by
  unfold rowToCol
  rw [List.getD_eq_getElem _ _ (by simpa using h)]
  simp

lemma colToRow_getD {nc : Nat} {pairs : List (Nat × Nat)} {j : Nat}
    (h : j < nc) : (colToRow nc pairs).getD j (-1) = colEntry pairs j := by
  unfold colToRow
  rw [List.getD_eq_getElem _ _ (by simpa using h)]
  simp

lemma rowToCol_getD_oob {nr : Nat} {pairs : List (Nat × Nat)} {i : Nat}
    (h : nr ≤ i) : (rowToCol nr pairs).getD i (-1) = -1 := by
  apply List.getD_eq_default
  simpa [rowToCol]

lemma colToRow_getD_oob {nc : Nat} {pairs : List (Nat × Nat)} {j : Nat}
    (h : nc ≤ j) : (colToRow nc pairs).getD j (-1) = -1 := by
  apply List.getD_eq_default
  simpa [colToRow]

lemma bipartiteMatch_fst (nr nc : Nat) (d : Nat → Nat → ℚ) (nvr tk : Int) :
    (bipartiteMatch nr nc d nvr tk).1 =
      rowToCol nr (matchedPairs nr nc d nvr tk) := rfl

lemma bipartiteMatch_snd (nr nc : Nat) (d : Nat → Nat → ℚ) (nvr tk : Int) :
    (bipartiteMatch nr nc d nvr tk).2 =
      colToRow nc (matchedPairs nr nc d nvr tk) := rfl

/-- Claim C1: the outputs of BipartiteMatch form a partial bijection: whenever
`row_to_col[i] = j ≥ 0` then `col_to_row[j] = i`, and whenever
`col_to_row[j] = i ≥ 0` then `row_to_col[i] = j`; no row or column appears in
more than one matched pair.  Non-negative entries are represented by casting a
natural number to `Int`. -/
theorem bipartiteMatch_bijection (nr nc : Nat) (d : Nat → Nat → ℚ)
    (nvr tk : Int) (i j : Nat) :
    ((bipartiteMatch nr nc d nvr tk).1.getD i (-1) = (j : Int) →
      i < nr ∧ j < nc ∧
        (bipartiteMatch nr nc d nvr tk).2.getD j (-1) = (i : Int)) ∧
    ((bipartiteMatch nr nc d nvr tk).2.getD j (-1) = (i : Int) →
      i < nr ∧ j < nc ∧
        (bipartiteMatch nr nc d nvr tk).1.getD i (-1) = (j : Int)) := by
  have hspec := matchedPairs_spec nr nc d nvr tk
  constructor
  · intro h
    by_cases hi : i < nr
    · rw [bipartiteMatch_fst, rowToCol_getD hi] at h
      have hmem := rowEntry_mem h
      have hp := hspec.1 _ hmem
      simp only at hp
      refine ⟨hi, hp.2, ?_⟩
      rw [bipartiteMatch_snd, colToRow_getD hp.2]
      exact colEntry_of_mem hspec.2.2.1 hmem
    · rw [bipartiteMatch_fst, rowToCol_getD_oob (le_of_not_lt hi)] at h
      exfalso
      omega
  · intro h
    by_cases hj : j < nc
    · rw [bipartiteMatch_snd, colToRow_getD hj] at h
      have hmem := colEntry_mem h
      have hp := hspec.1 _ hmem
      simp only at hp
      have hi : i < nr := lt_of_lt_of_le hp.1 (effectiveNumRows_le nr nvr)
      refine ⟨hi, hj, ?_⟩
      rw [bipartiteMatch_fst, rowToCol_getD hi]
      exact rowEntry_of_mem hspec.2.1 hmem
    · rw [bipartiteMatch_snd, colToRow_getD_oob (le_of_not_lt hj)] at h
      exfalso
      omega

/-- Witness for C1: on the spec's 2×2 matrix `[[0.1, 0.9], [0.8, 0.2]]`, row 0
is matched to column 0 and the reverse mapping agrees. -/
theorem bipartiteMatch_bijection_witness :
    0 < 2 ∧ 0 < 2 ∧
    (bipartiteMatch 2 2
      (fun i j => if i = 0 then (if j = 0 then mkRat 1 10 else mkRat 9 10)
                  else (if j = 0 then mkRat 8 10 else mkRat 2 10))
      (-1) (-1)).2.getD 0 (-1) = ((0 : Nat) : Int) :=
  (bipartiteMatch_bijection 2 2
    (fun i j => if i = 0 then (if j = 0 then mkRat 1 10 else mkRat 9 10)
                else (if j = 0 then mkRat 8 10 else mkRat 2 10))
    (-1) (-1) 0 0).1 (by decide)

/-- Claim C2: the matcher repeatedly selects the unconsumed candidate with the
globally smallest distance, breaking ties by lowest row index then lowest
column index (the candidate pool is kept in row-major order and `pickMin`
returns its first minimal element); on the all-0.5 2×2 matrix pairs (0,0) and
then (1,1) are selected, giving `row_to_col = [0, 1]`, `col_to_row = [0, 1]`. -/
theorem bipartiteMatch_greedy_selection :
    (∀ enr nc : Nat, (candidatePairs enr nc).Pairwise lexLt) ∧
    (∀ (d : Nat → Nat → ℚ) (avail : List (Nat × Nat)) (p : Nat × Nat),
        avail.Pairwise lexLt → pickMin d avail = some p →
        p ∈ avail ∧ ∀ q ∈ avail,
          d p.1 p.2 ≤ d q.1 q.2 ∧
            (d p.1 p.2 = d q.1 q.2 → p = q ∨ lexLt p q)) ∧
    matchedPairs 2 2 (fun _ _ => mkRat 1 2) (-1) (-1) = [(0, 0), (1, 1)] ∧
    bipartiteMatch 2 2 (fun _ _ => mkRat 1 2) (-1) (-1) = ([0, 1], [0, 1]) := by
  refine ⟨candidatePairs_pairwise, ?_, by decide, by decide⟩
  intro d avail p hpw hpick
  exact ⟨pickMin_mem hpick, pickMin_sorted_min hpw hpick⟩

/-- Witness for C2: one concrete greedy step on the sorted availability list
`[(0,0), (0,1)]` with equal distances selects `(0,0)`, which precedes `(0,1)`
in row-major order. -/
theorem bipartiteMatch_greedy_selection_witness :
    mkRat 1 2 ≤ mkRat 1 2 ∧
    (((0, 0) : Nat × Nat) = (0, 1) ∨ lexLt (0, 0) (0, 1)) :=
  have h := (bipartiteMatch_greedy_selection.2.1 (fun _ _ => mkRat 1 2)
    [(0, 0), (0, 1)] (0, 0) (by decide) (by decide)).2 (0, 1) (by decide)
  ⟨h.1, h.2 rfl⟩

/-- Claim C3: the number of matched pairs (non-(-1) entries of `row_to_col`)
never exceeds `effective_top_k`. -/
theorem bipartiteMatch_cap (nr nc : Nat) (d : Nat → Nat → ℚ) (nvr tk : Int) :
    (bipartiteMatch nr nc d nvr tk).1.countP (fun x => x != -1)
      ≤ effectiveTopK nr nc nvr tk := by
  have hspec := matchedPairs_spec nr nc d nvr tk
  rw [bipartiteMatch_fst]
  unfold rowToCol
  rw [List.countP_map, List.countP_eq_length_filter]
  have hsub : (List.range nr).filter
      ((fun x => x != -1) ∘ rowEntry (matchedPairs nr nc d nvr tk))
      ⊆ (matchedPairs nr nc d nvr tk).map Prod.fst := by
    intro i hi
    have hi2 := (List.mem_filter.mp hi).2
    simp only [Function.comp, bne_iff_ne] at hi2
    unfold rowEntry at hi2
    cases hf : (matchedPairs nr nc d nvr tk).find? (fun p => p.1 == i) with
    | none => rw [hf] at hi2; simp at hi2
    | some q =>
      have hq1 : q.1 = i := by
        have := List.find?_some hf
        simpa using this
      have hmem := List.mem_of_find?_eq_some hf
      exact List.mem_map.mpr ⟨q, hmem, hq1⟩
  have hnd : ((List.range nr).filter
      ((fun x => x != -1) ∘ rowEntry (matchedPairs nr nc d nvr tk))).Nodup :=
    (List.nodup_range nr).filter _
  have hle := (List.subperm_of_subset hnd hsub).length_le
  rw [List.length_map] at hle
  exact le_trans hle hspec.2.2.2

/-- Claim C4: every row with index at least `effective_num_rows` is excluded
from matching: its `row_to_col` entry is `-1` whatever the distances are. -/
theorem bipartiteMatch_invalid_row_unmatched (nr nc : Nat) (d : Nat → Nat → ℚ)
    (nvr tk : Int) (i : Nat) (h : effectiveNumRows nr nvr ≤ i) :
    (bipartiteMatch nr nc d nvr tk).1.getD i (-1) = -1 := by
  by_cases hi : i < nr
  · rw [bipartiteMatch_fst, rowToCol_getD hi]
    unfold rowEntry
    have hnone : (matchedPairs nr nc d nvr tk).find? (fun p => p.1 == i)
        = none := by
      rw [List.find?_eq_none]
      intro p hp
      have hlt := ((matchedPairs_spec nr nc d nvr tk).1 p hp).1
      simp only [beq_iff_eq]
      omega
    rw [hnone]
  · rw [bipartiteMatch_fst, rowToCol_getD_oob (le_of_not_lt hi)]

/-- Witness for C4: the spec's 3×2 scenario: row 2 holds the globally smallest
distance yet `num_valid_rows = 2` keeps it unmatched. -/
theorem bipartiteMatch_invalid_row_unmatched_witness :
    effectiveNumRows 3 2 ≤ 2 ∧
    (bipartiteMatch 3 2 (fun i _ => if i = 2 then 0 else 1) 2 (-1)).1.getD 2
      (-1) = -1 :=
  ⟨by decide,
   bipartiteMatch_invalid_row_unmatched 3 2 (fun i _ => if i = 2 then 0 else 1)
     2 (-1) 2 (by decide)⟩

/-- Claim C5: the BipartiteMatch shape function rejects a distance matrix
whose rank is not exactly 2 before producing any output, and accepts every
rank-2 matrix, producing the two output shapes. -/
theorem bipartiteMatchShapeFn_rank2 (s t : Shape) :
    (s.length ≠ 2 →
      bipartiteMatchShapeFn s t = Except.error "Shape must have rank 2") ∧
    (s.length = 2 →
      bipartiteMatchShapeFn s t =
        Except.ok ([s.getD 0 none], [s.getD 1 none])) := by
  constructor
  · intro h
    unfold bipartiteMatchShapeFn withRank
    rw [if_neg h]
  · intro h
    unfold bipartiteMatchShapeFn withRank
    rw [if_pos h]

/-- Witness for C5: a rank-1 shape is rejected and a rank-2 shape is
accepted. -/
theorem bipartiteMatchShapeFn_rank2_witness :
    bipartiteMatchShapeFn [some 1] [] = Except.error "Shape must have rank 2" ∧
    bipartiteMatchShapeFn [some 3, some 4] [] =
      Except.ok ([some 3], [some 4]) :=
  ⟨(bipartiteMatchShapeFn_rank2 [some 1] []).1 (by decide),
   (bipartiteMatchShapeFn_rank2 [some 3, some 4] []).2 rfl⟩

/-- Claim C6: `row_to_col` always has exactly `num_rows` entries and
`col_to_row` exactly `num_columns` entries, and the `[0, 0]` matrix with
`num_valid_rows = -1`, `top_k = -1` yields two empty outputs. -/
theorem bipartiteMatch_output_lengths (nr nc : Nat) (d : Nat → Nat → ℚ)
    (nvr tk : Int) :
    (bipartiteMatch nr nc d nvr tk).1.length = nr ∧
    (bipartiteMatch nr nc d nvr tk).2.length = nc ∧
    ∀ d0 : Nat → Nat → ℚ, bipartiteMatch 0 0 d0 (-1) (-1) = ([], []) := by
  refine ⟨?_, ?_, fun d0 => rfl⟩
  · rw [bipartiteMatch_fst]
    unfold rowToCol
    simp
  · rw [bipartiteMatch_snd]
    unfold colToRow
    simp

/-- Claim C7: the matcher is deterministic: identical distance matrix,
`num_valid_rows` and `top_k` inputs produce identical outputs (the modelled
kernel is a pure function of its inputs). -/
theorem bipartiteMatch_deterministic (nr nc : Nat) (d d' : Nat → Nat → ℚ)
    (nvr nvr' tk tk' : Int) (h1 : d = d') (h2 : nvr = nvr') (h3 : tk = tk') :
    bipartiteMatch nr nc d nvr tk = bipartiteMatch nr nc d' nvr' tk' := by
  rw [h1, h2, h3]

/-- Witness for C7: two identical concrete invocations coincide. -/
theorem bipartiteMatch_deterministic_witness :
    bipartiteMatch 1 1 (fun _ _ => 0) 0 0 =
      bipartiteMatch 1 1 (fun _ _ => 0) 0 0 :=
  bipartiteMatch_deterministic 1 1 (fun _ _ => 0) (fun _ _ => 0) 0 0 0 0
    rfl rfl rfl

/-- Claim C8: a `num_valid_rows`/`top_k` parameter supplied as a container
with more than one element is rejected before any matching work; a bare
scalar or a one-element container is accepted. -/
theorem validateScalarArg_container (vs : List Int) (v : Int)
    (h : 1 < vs.length) :
    validateScalarArg (ScalarArg.container vs) =
      Except.error "parameter must be a scalar or hold exactly one element" ∧
    validateScalarArg (ScalarArg.scalar v) = Except.ok v ∧
    validateScalarArg (ScalarArg.container [v]) = Except.ok v := by
  refine ⟨?_, rfl, rfl⟩
  cases vs with
  | nil => simp at h
  | cons a rest =>
    cases rest with
    | nil => simp at h
    | cons b rest2 => rfl

/-- Witness for C8: the two-element container `[3, 4]` is rejected while the
scalar `7` and the container `[7]` are accepted. -/
theorem validateScalarArg_container_witness :
    validateScalarArg (ScalarArg.container [3, 4]) =
      Except.error "parameter must be a scalar or hold exactly one element" ∧
    validateScalarArg (ScalarArg.scalar 7) = Except.ok 7 ∧
    validateScalarArg (ScalarArg.container [7]) = Except.ok 7 :=
  validateScalarArg_container [3, 4] 7 (by decide)

/-- Claim C9: every negative `num_valid_rows` (not only -1), whatever `top_k`
is, makes all rows eligible and behaves exactly like the `-1` sentinel; every
negative `top_k`, whatever `num_valid_rows` is, caps the matches only by
`min(effective_num_rows, num_columns)` and behaves exactly like the `-1`
sentinel; negative values are sentinels, never an error. -/
theorem bipartiteMatch_negative_sentinels (nr nc : Nat) (d : Nat → Nat → ℚ)
    (nvr tk : Int) :
    (nvr < 0 → effectiveNumRows nr nvr = nr ∧
      bipartiteMatch nr nc d nvr tk = bipartiteMatch nr nc d (-1) tk) ∧
    (tk < 0 → effectiveTopK nr nc nvr tk = min (effectiveNumRows nr nvr) nc ∧
      bipartiteMatch nr nc d nvr tk = bipartiteMatch nr nc d nvr (-1)) := by
  constructor
  · intro h1
    have he : effectiveNumRows nr nvr = nr := by
      unfold effectiveNumRows
      rw [if_pos h1]
    have he1 : effectiveNumRows nr (-1) = nr := by
      unfold effectiveNumRows
      norm_num
    refine ⟨he, ?_⟩
    unfold bipartiteMatch matchedPairs effectiveTopK
    rw [he, he1]
  · intro h2
    have ht : effectiveTopK nr nc nvr tk
        = min (effectiveNumRows nr nvr) nc := by
      unfold effectiveTopK
      rw [if_pos h2]
    have ht1 : effectiveTopK nr nc nvr (-1)
        = min (effectiveNumRows nr nvr) nc := by
      unfold effectiveTopK
      rw [if_pos (by norm_num : (-1 : Int) < 0)]
    refine ⟨ht, ?_⟩
    unfold bipartiteMatch matchedPairs
    rw [ht, ht1]

/-- Witness for C9: `num_valid_rows = -5` acts as the `-1` sentinel even with
a positive `top_k = 1`, and `top_k = -1` yields the
`min(effective_num_rows, num_columns)` cap even with the non-negative
`num_valid_rows = 2`. -/
theorem bipartiteMatch_negative_sentinels_witness :
    (effectiveNumRows 2 (-5) = 2 ∧
      bipartiteMatch 2 3 (fun _ _ => 0) (-5) 1 =
        bipartiteMatch 2 3 (fun _ _ => 0) (-1) 1) ∧
    (effectiveTopK 3 2 2 (-1) = min (effectiveNumRows 3 2) 2 ∧
      bipartiteMatch 3 2 (fun _ _ => 0) 2 (-1) =
        bipartiteMatch 3 2 (fun _ _ => 0) 2 (-1)) :=
  ⟨(bipartiteMatch_negative_sentinels 2 3 (fun _ _ => 0) (-5) 1).1 (by decide),
   (bipartiteMatch_negative_sentinels 3 2 (fun _ _ => 0) 2 (-1)).2 (by decide)⟩

/-- Claim C10: the ImageProjectiveTransform shape function sets the output
shape to the shape of input 0 for every input shape of any rank; the
transforms input never influences the result and no rank constraint is
enforced. -/
theorem imageProjectiveTransformShapeFn_identity (images t t' : Shape) :
    imageProjectiveTransformShapeFn images t = Except.ok images ∧
    imageProjectiveTransformShapeFn images t =
      imageProjectiveTransformShapeFn images t' :=
  ⟨rfl, rfl⟩

end TFImage
